import Mathlib

/-!
Verification of the chunk lifecycle manager and world generator of the
`bevy_sim` procedural-terrain engine (`src/world_generation.rs`,
`src/consts.rs`, `src/main.rs`).

The development is a shallow embedding: each Rust function of the chunk
lifecycle (rescan, spawn drain, LOD drain, despawn pass) and of the world
generator (noise layers, climate, biome, terrain height, palette coloring)
is translated into a Lean definition, and the spec's claims are stated and
settled as theorems about those definitions.

Modelling conventions:
* `i32`/`u32`/`usize` become `ℤ`/`ℕ`; `f32`/`f64` become `ℝ`.  All the f32
  arithmetic the chunk bookkeeping performs is on small integral values
  (chunk coordinates, squared chunk distances), where f32 arithmetic is
  exact, so the registry logic is modelled over `ℤ`.
* Bevy ECS entities are modelled by natural-number ids; a query is a list
  of records (or a partial lookup function) of the components it matches.
* `Vec::sort_by` is a stable sort and is modelled by `sortBy`, a stable
  insertion sort defined below.
* Fallible operations (panicking indexing) return `Option`.
-/

namespace BevySim

/-- A chunk grid coordinate `(x, z)` (`i32` pair in the source). -/
abbrev Coord : Type := ℤ × ℤ

/-- One insertion step of a stable insertion sort: place `a` before the
first element `b` with `le a b`. -/
def insertBy {α : Type*} (le : α → α → Bool) (a : α) : List α → List α
  | [] => [a]
  | b :: bs => if le a b then a :: b :: bs else b :: insertBy le a bs

/-- Stable sort by a comparator, modelling Rust's stable `Vec::sort_by`
(structurally recursive so that concrete runs reduce in the kernel). -/
def sortBy {α : Type*} (le : α → α → Bool) : List α → List α
  | [] => []
  | a :: as => insertBy le a (sortBy le as)

lemma insertBy_perm {α : Type*} (le : α → α → Bool) (a : α) :
    ∀ l : List α, List.Perm (insertBy le a l) (a :: l) := by
  intro l
  induction l with
  | nil => simp [insertBy]
  | cons b bs ih =>
    rw [insertBy]
    by_cases h : le a b
    · rw [if_pos h]
    · rw [if_neg h]
      exact (ih.cons b).trans (List.Perm.swap a b bs)

lemma sortBy_perm {α : Type*} (le : α → α → Bool) :
    ∀ l : List α, List.Perm (sortBy le l) l := by
  intro l
  induction l with
  | nil => simp [sortBy]
  | cons a as ih => exact (insertBy_perm le a (sortBy le as)).trans (ih.cons a)

/-- The squared chunk distance `dx * dx + dz * dz` computed by the lifecycle
systems (`world_generation.rs`, e.g. lines 463-465, 502-504, 677-679).  The
source computes it in `f32` on integer-valued differences, which is exact. -/
def distSq (c cam : Coord) : ℤ :=
  (c.1 - cam.1) * (c.1 - cam.1) + (c.2 - cam.2) * (c.2 - cam.2)

/-- The inclusive integer range `lo ..= hi` of a Rust `for x in lo..=hi` loop. -/
def intRange (lo hi : ℤ) : List ℤ :=
  (List.range (hi + 1 - lo).toNat).map (fun i => lo + (i : ℤ))

/-- The rescan of `generate_chunks` (`world_generation.rs` lines 458-479):
collect every coordinate in the `(cam_x ± render_distance) × (cam_z ±
render_distance)` square whose squared distance to the camera chunk is at
most `render_distance²` and which is not already spawned (x outer loop, z
inner loop), then stable-sort the queue by squared distance to the camera. -/
def rescanToSpawn (cam : Coord) (renderDistance : ℤ) (spawned : Finset Coord) :
    List Coord :=
  let candidates :=
    (intRange (cam.1 - renderDistance) (cam.1 + renderDistance)).flatMap fun x =>
      (intRange (cam.2 - renderDistance) (cam.2 + renderDistance)).filterMap fun z =>
        if distSq (x, z) cam ≤ renderDistance ^ 2 ∧ (x, z) ∉ spawned then
          some (x, z)
        else none
  sortBy (fun a b => distSq a cam ≤ distSq b cam) candidates

/-- The spawn drain of `generate_chunks` (`world_generation.rs` lines
496-535): while fewer than `maxChunks` chunks were spawned this frame and
the queue is nonempty, pop the front coordinate, re-validate it (still
within `render_distance` of the camera and still unspawned), and if valid
insert it into `spawned_chunks` and spawn the chunk entity.  Returns the
final spawned set, the remaining queue, and the list of coordinates spawned
this frame (in spawn order). -/
def drainToSpawn (cam : Coord) (renderDistance : ℤ) (maxChunks : ℕ) :
    List Coord → Finset Coord → List Coord →
    Finset Coord × List Coord × List Coord
  | [], spawned, acc => (spawned, [], acc)
  | c :: rest, spawned, acc =>
    if acc.length < maxChunks then
      if distSq c cam ≤ renderDistance ^ 2 ∧ c ∉ spawned then
        drainToSpawn cam renderDistance maxChunks rest (insert c spawned) (acc ++ [c])
      else
        drainToSpawn cam renderDistance maxChunks rest spawned acc
    else (spawned, c :: rest, acc)

/-- The `Chunk` component (`world_generation.rs` lines 381-386). -/
structure Chunk where
  x : ℤ
  z : ℤ
  current_lod : ℕ
deriving DecidableEq, Repr

/-- One entity as seen by the despawn pass: an id, its `Chunk` component, and
whether a `ChunkTask` component (an in-flight async build) is attached.  The
despawn query `Query<(Entity, &Chunk)>` does not filter on `ChunkTask`, so
`building` is carried but ignored by `despawnPass`. -/
structure EntityRec where
  id : ℕ
  chunk : Chunk
  building : Bool
deriving DecidableEq, Repr

/-- The despawn pass `despawn_out_of_bounds_chunks` (`world_generation.rs`
lines 660-694): collect every chunk entity whose squared distance to the
camera chunk exceeds `(render_distance + 1)²`, stable-sort farthest first,
and despawn at most `max_chunks_per_frame * 2` of them, removing each
despawned coordinate from `spawned_chunks`.  Returns the list of despawned
`(entity id, x, z)` triples (in despawn order) and the updated spawned set. -/
def despawnPass (cam : Coord) (renderDistance : ℤ) (maxChunks : ℕ)
    (chunks : List EntityRec) (spawned : Finset Coord) :
    List (ℕ × ℤ × ℤ) × Finset Coord :=
  let despawnDistanceSq := (renderDistance + 1) ^ 2
  let chunksToDespawn :=
    chunks.filterMap fun e =>
      if despawnDistanceSq < distSq (e.chunk.x, e.chunk.z) cam then
        some (e.id, e.chunk.x, e.chunk.z, distSq (e.chunk.x, e.chunk.z) cam)
      else none
  let sorted := sortBy (fun a b => b.2.2.2 ≤ a.2.2.2) chunksToDespawn
  let taken := sorted.take (maxChunks * 2)
  (taken.map (fun p => (p.1, p.2.1, p.2.2.1)),
   taken.foldl (fun s p => s.erase (p.2.1, p.2.2.1)) spawned)

/-- The `ChunkManager` resource (`world_generation.rs` lines 388-398).  The
`lod_levels` field is `[(f32, u32); 5]` in the source (a nonempty,
statically-sized table); it is modelled as a list, with nonemptiness stated
as a hypothesis where the source relies on it. -/
structure ChunkManager where
  spawned_chunks : Finset Coord
  last_camera_chunk : Option Coord
  to_spawn : List Coord
  lod_to_update : List ℕ
  render_distance : ℤ
  lod_levels : List (ℝ × ℕ)
  lod_quality_multiplier : ℕ
  lod_distance_multiplier : ℝ

/-- The band-scanning loop inside `get_lod_subdivisions`
(`world_generation.rs` lines 409-413): return the subdivision count (scaled
by the quality multiplier) of the first band whose scaled max distance is
not exceeded, or `none` if no band matches. -/
noncomputable def lodLoop (distance distanceMultiplier : ℝ) (quality : ℕ) :
    List (ℝ × ℕ) → Option ℕ
  | [] => none
  | (maxDistance, subdivisions) :: rest =>
    if distance ≤ maxDistance * distanceMultiplier then
      some (subdivisions * quality)
    else lodLoop distance distanceMultiplier quality rest

/-- The function `get_lod_subdivisions` (`world_generation.rs` lines 406-416): take the
square root of the squared distance, scan the LOD table front to back, and
fall back to the last band's subdivision count when no band matches.  The
source's `lod_levels.last().unwrap()` panics only on an empty table, which
the source's `[(f32, u32); 5]` type excludes; the model returns `0` there. -/
noncomputable def get_lod_subdivisions (distance_sq : ℝ) (cm : ChunkManager) : ℕ :=
  let distance := Real.sqrt distance_sq
  match lodLoop distance cm.lod_distance_multiplier cm.lod_quality_multiplier
      cm.lod_levels with
  | some s => s
  | none =>
    ((cm.lod_levels.getLast?).map (fun p => p.2 * cm.lod_quality_multiplier)).getD 0

/-- Pointwise update of an entity lookup function (the effect of
`chunk.current_lod = desired_lod` through `chunks.get_mut`). -/
def updateEnt (ents : ℕ → Option Chunk) (e : ℕ) (c : Chunk) :
    ℕ → Option Chunk :=
  fun e' => if e' = e then some c else ents e'

/-- The LOD-queue drain of `update_chunk_lod` (`world_generation.rs` lines
576-657): while fewer than `maxChunks` rebuilds were launched this frame and
`lod_to_update` is nonempty, pop the front entity id; if the entity still
exists and has no in-flight build (`ents` returns its `Chunk`), recompute
its desired LOD from the current camera chunk, skip it if the LOD already
matches, otherwise launch an async rebuild (recorded in the returned list),
set `current_lod` to the desired value, and count it against the budget.
Returns the updated entity store, the remaining queue, and the list of
entities whose rebuild was launched this frame. -/
noncomputable def drainLodQueue (cam : Coord) (cm : ChunkManager) (maxChunks : ℕ) :
    List ℕ → (ℕ → Option Chunk) → List ℕ →
    (ℕ → Option Chunk) × List ℕ × List ℕ
  | [], ents, acc => (ents, [], acc)
  | e :: rest, ents, acc =>
    if acc.length < maxChunks then
      match ents e with
      | none => drainLodQueue cam cm maxChunks rest ents acc
      | some chunk =>
        let desired := get_lod_subdivisions (distSq (chunk.x, chunk.z) cam) cm
        if desired = chunk.current_lod then
          drainLodQueue cam cm maxChunks rest ents acc
        else
          drainLodQueue cam cm maxChunks rest
            (updateEnt ents e { chunk with current_lod := desired }) (acc ++ [e])
    else (ents, e :: rest, acc)

/-- The LOD rescan of `update_chunk_lod` (`world_generation.rs` lines
558-573): over every chunk entity without an in-flight build
(`Without<ChunkTask>`), compare the desired LOD at the current camera chunk
with `current_lod`; collect the entities that differ, stable-sorted by
squared distance, nearest first. -/
noncomputable def lodScan (cam : Coord) (cm : ChunkManager)
    (chunks : List EntityRec) : List ℕ :=
  let candidates :=
    (chunks.filter (fun e => !e.building)).filterMap fun e =>
      let dsq := distSq (e.chunk.x, e.chunk.z) cam
      if get_lod_subdivisions (dsq : ℝ) cm ≠ e.chunk.current_lod then
        some (e.id, dsq)
      else none
  (sortBy (fun a b => a.2 ≤ b.2) candidates).map (fun p => p.1)

lemma drainToSpawn_count_le (cam : Coord) (rd : ℤ) (m : ℕ) :
    ∀ (q : List Coord) (s : Finset Coord) (acc : List Coord),
      acc.length ≤ m → ((drainToSpawn cam rd m q s acc).2.2).length ≤ m := by
  intro q
  induction q with
  | nil => intro s acc h; simpa [drainToSpawn] using h
  | cons c rest ih =>
    intro s acc h
    by_cases hlt : acc.length < m
    · by_cases hc : distSq c cam ≤ rd ^ 2 ∧ c ∉ s
      · rw [drainToSpawn, if_pos hlt, if_pos hc]
        exact ih _ _ (by simp only [List.length_append, List.length_cons,
          List.length_nil]; omega)
      · rw [drainToSpawn, if_pos hlt, if_neg hc]
        exact ih _ _ h
    · rw [drainToSpawn, if_neg hlt]
      simpa using h

lemma drainLodQueue_count_le (cam : Coord) (cm : ChunkManager) (m : ℕ) :
    ∀ (q : List ℕ) (ents : ℕ → Option Chunk) (acc : List ℕ),
      acc.length ≤ m → ((drainLodQueue cam cm m q ents acc).2.2).length ≤ m := by
  intro q
  induction q with
  | nil => intro ents acc h; simpa [drainLodQueue] using h
  | cons e rest ih =>
    intro ents acc h
    by_cases hlt : acc.length < m
    · rw [drainLodQueue, if_pos hlt]
      cases hent : ents e with
      | none => exact ih _ _ h
      | some chunk =>
        simp only
        by_cases hd :
            get_lod_subdivisions (distSq (chunk.x, chunk.z) cam) cm =
              chunk.current_lod
        · rw [if_pos hd]; exact ih _ _ h
        · rw [if_neg hd]
          exact ih _ _ (by simp only [List.length_append, List.length_cons,
            List.length_nil]; omega)
    · rw [drainLodQueue, if_neg hlt]
      simpa using h

/-- C2: in any single tick, for every camera position and every queue
contents, the spawn-queue drain of `generate_chunks` spawns at most
`max_chunks_per_frame` new chunks, and the LOD-queue drain of
`update_chunk_lod` launches at most `max_chunks_per_frame` rebuilds, even
when `to_spawn` or `lod_to_update` holds more entries. -/
theorem drain_rate_limited (cam : Coord) (rd : ℤ) (maxChunks : ℕ)
    (toSpawn : List Coord) (spawned : Finset Coord) (cm : ChunkManager)
    (lodQueue : List ℕ) (ents : ℕ → Option Chunk) :
    ((drainToSpawn cam rd maxChunks toSpawn spawned []).2.2).length ≤ maxChunks ∧
    ((drainLodQueue cam cm maxChunks lodQueue ents []).2.2).length ≤ maxChunks :=
  ⟨drainToSpawn_count_le cam rd maxChunks toSpawn spawned []
      (by simp),
   drainLodQueue_count_le cam cm maxChunks lodQueue ents []
      (by simp)⟩

lemma despawn_candidate_far (cam : Coord) (rd : ℤ) (m : ℕ) (ents : List EntityRec)
    (p : ℕ × ℤ × ℤ × ℤ)
    (hp : p ∈ (sortBy (fun a b => b.2.2.2 ≤ a.2.2.2) (ents.filterMap fun e =>
        if (rd + 1) ^ 2 < distSq (e.chunk.x, e.chunk.z) cam then
          some (e.id, e.chunk.x, e.chunk.z, distSq (e.chunk.x, e.chunk.z) cam)
        else none)).take (m * 2)) :
    ∃ e ∈ ents, p = (e.id, e.chunk.x, e.chunk.z, distSq (e.chunk.x, e.chunk.z) cam) ∧
      (rd + 1) ^ 2 < distSq (e.chunk.x, e.chunk.z) cam := by
  have hp' := List.take_subset _ _ hp
  have hp'' := (sortBy_perm _ _).mem_iff.mp hp'
  rw [List.mem_filterMap] at hp''
  obtain ⟨e, he, heq⟩ := hp''
  by_cases hfar : (rd + 1) ^ 2 < distSq (e.chunk.x, e.chunk.z) cam
  · rw [if_pos hfar] at heq
    exact ⟨e, he, (Option.some_injective _ heq).symm, hfar⟩
  · rw [if_neg hfar] at heq
    exact absurd heq (Option.noConfusion)

lemma mem_foldl_erase {c : Coord} :
    ∀ (l : List (ℕ × ℤ × ℤ × ℤ)) (s : Finset Coord), c ∈ s →
      (∀ p ∈ l, (p.2.1, p.2.2.1) ≠ c) →
      c ∈ l.foldl (fun s p => s.erase (p.2.1, p.2.2.1)) s := by
  intro l
  induction l with
  | nil => intro s h _; simpa using h
  | cons p rest ih =>
    intro s h hne
    simp only [List.foldl_cons]
    refine ih _ (Finset.mem_erase.mpr ⟨?_, h⟩) fun q hq => hne q (by simp [hq])
    exact fun he => hne p (by simp) (by rw [he])

/-- C4: for every tick and every spawned chunk whose squared chunk-distance
to the camera chunk is at most `(render_distance + 1)²`, the despawn pass
never despawns it: every despawned entry lies strictly beyond the
hysteresis radius, and every registered coordinate within the radius
survives in `spawned_chunks`. -/
theorem despawn_hysteresis (cam : Coord) (rd : ℤ) (m : ℕ)
    (ents : List EntityRec) (spawned : Finset Coord) :
    (∀ p ∈ (despawnPass cam rd m ents spawned).1,
        (rd + 1) ^ 2 < distSq (p.2.1, p.2.2) cam) ∧
    (∀ c ∈ spawned, distSq c cam ≤ (rd + 1) ^ 2 →
        c ∈ (despawnPass cam rd m ents spawned).2) := by
  constructor
  · intro p hp
    simp only [despawnPass, List.mem_map] at hp
    obtain ⟨q, hq, rfl⟩ := hp
    obtain ⟨e, _, rfl, hfar⟩ := despawn_candidate_far cam rd m ents q hq
    exact hfar
  · intro c hc hnear
    simp only [despawnPass]
    refine mem_foldl_erase _ _ hc fun p hp => ?_
    obtain ⟨e, _, rfl, hfar⟩ := despawn_candidate_far cam rd m ents p hp
    intro he
    rw [← he] at hnear
    exact absurd hnear (not_le.mpr hfar)

/-- Witness for C4 at a concrete input: with the camera at the origin,
render distance 3 and two spawned chunks, the chunk at `(2, 0)` (squared
distance `4 ≤ 16`) survives the despawn pass. -/
theorem despawn_hysteresis_witness :
    ((2 : ℤ), (0 : ℤ)) ∈
      (despawnPass (0, 0) 3 1 [⟨0, ⟨2, 0, 20⟩, false⟩, ⟨1, ⟨9, 0, 1⟩, false⟩]
        {((2 : ℤ), (0 : ℤ)), ((9 : ℤ), (0 : ℤ))}).2 :=
  (despawn_hysteresis (0, 0) 3 1 [⟨0, ⟨2, 0, 20⟩, false⟩, ⟨1, ⟨9, 0, 1⟩, false⟩]
    {((2 : ℤ), (0 : ℤ)), ((9 : ℤ), (0 : ℤ))}).2 (2, 0) (by decide) (by decide)

lemma mem_rescanToSpawn {cam : Coord} {rd : ℤ} {spawned : Finset Coord} {c : Coord}
    (hc : c ∈ rescanToSpawn cam rd spawned) :
    distSq c cam ≤ rd ^ 2 ∧ c ∉ spawned := by
  simp only [rescanToSpawn] at hc
  have h' := (sortBy_perm _ _).mem_iff.mp hc
  simp only [List.mem_flatMap, List.mem_filterMap] at h'
  obtain ⟨x, _, z, _, hz⟩ := h'
  by_cases h : distSq (x, z) cam ≤ rd ^ 2 ∧ (x, z) ∉ spawned
  · rw [if_pos h] at hz
    obtain rfl := Option.some_injective _ hz
    exact h
  · rw [if_neg h] at hz
    exact absurd hz Option.noConfusion

/-- C3 counterexample: the despawn query `Query<(Entity, &Chunk)>` does not
exclude chunks with an in-flight `ChunkTask`.  With the camera chunk at the
origin and render distance 3, a chunk at `(9, 0)` whose async build is
still pending (`building = true`) is despawned by the pass — contradicting
the claim that despawn only ever targets fully-realized chunks and never
chunks still building (the same pass also ignores `lod_to_update`, so an
entity persisted in that queue from an earlier scan is despawned just the
same). -/
theorem despawn_targets_building_chunk :
    (despawnPass (0, 0) 3 1 [⟨0, ⟨9, 0, 20⟩, true⟩]
      {((9 : ℤ), (0 : ℤ))}).1 = [(0, 9, 0)] ∧
    (⟨0, ⟨9, 0, 20⟩, true⟩ : EntityRec).building = true := by decide

/-- C3 (amended): a coordinate in `to_spawn` is never also removed by the
despawn pass in the same frame: the rescan only enqueues coordinates absent
from `spawned_chunks`, and despawn only removes coordinates of live chunk
entities, which are all registered in `spawned_chunks`.  (Chunks still
building, or queued in `lod_to_update`, are *not* protected from despawn.) -/
theorem to_spawn_never_despawned (cam : Coord) (rd : ℤ) (m : ℕ)
    (ents : List EntityRec) (spawned : Finset Coord) (toSpawn : List Coord)
    (hents : ∀ e ∈ ents, (e.chunk.x, e.chunk.z) ∈ spawned)
    (hdisj : ∀ c ∈ toSpawn, c ∉ spawned) :
    (∀ c ∈ rescanToSpawn cam rd spawned, c ∉ spawned) ∧
    ∀ p ∈ (despawnPass cam rd m ents spawned).1, (p.2.1, p.2.2) ∉ toSpawn := by
  constructor
  · exact fun c hc => (mem_rescanToSpawn hc).2
  · intro p hp
    simp only [despawnPass, List.mem_map] at hp
    obtain ⟨q, hq, rfl⟩ := hp
    obtain ⟨e, he, rfl, _⟩ := despawn_candidate_far cam rd m ents q hq
    exact fun hmem => hdisj _ hmem (hents e he)

/-- Witness for C3 (amended) at a concrete input: one live chunk at
`(9, 0)` registered in `spawned_chunks` and a queue holding `(1, 0)`. -/
theorem to_spawn_never_despawned_witness :
    (∀ c ∈ rescanToSpawn (0, 0) 3 {((9 : ℤ), (0 : ℤ))},
        c ∉ ({((9 : ℤ), (0 : ℤ))} : Finset Coord)) ∧
    ∀ p ∈ (despawnPass (0, 0) 3 1 [⟨0, ⟨9, 0, 20⟩, true⟩]
        {((9 : ℤ), (0 : ℤ))}).1,
      (p.2.1, p.2.2) ∉ [((1 : ℤ), (0 : ℤ))] :=
  to_spawn_never_despawned (0, 0) 3 1 [⟨0, ⟨9, 0, 20⟩, true⟩]
    {((9 : ℤ), (0 : ℤ))} [((1 : ℤ), (0 : ℤ))] (by decide) (by decide)

/-- C5: starting from an empty registry with the camera chunk at the origin
and `render_distance = 3`, the rescan enqueues exactly the coordinates
`(x, z)` with `x² + z² ≤ 9` (each once), and one spawn drain with
`max_chunks_per_frame = 100` fully empties the queue and leaves
`spawned_chunks` with cardinality equal to the number of integer lattice
points with `x² + z² ≤ 9` (all of which lie in `[-3, 3]²`), namely 29. -/
theorem initial_scan_scenario :
    ((rescanToSpawn (0, 0) 3 ∅).toFinset =
      (Finset.Icc (-3 : ℤ) 3 ×ˢ Finset.Icc (-3 : ℤ) 3).filter
        (fun p => p.1 * p.1 + p.2 * p.2 ≤ 9)) ∧
    (rescanToSpawn (0, 0) 3 ∅).Nodup ∧
    (drainToSpawn (0, 0) 3 100 (rescanToSpawn (0, 0) 3 ∅) ∅ []).2.1 = [] ∧
    (drainToSpawn (0, 0) 3 100 (rescanToSpawn (0, 0) 3 ∅) ∅ []).1.card =
      ((Finset.Icc (-3 : ℤ) 3 ×ˢ Finset.Icc (-3 : ℤ) 3).filter
        (fun p => p.1 * p.1 + p.2 * p.2 ≤ 9)).card ∧
    ((Finset.Icc (-3 : ℤ) 3 ×ˢ Finset.Icc (-3 : ℤ) 3).filter
        (fun p => p.1 * p.1 + p.2 * p.2 ≤ 9)).card = 29 := by decide

/-- The value `get_lod_subdivisions` computes once the square root has been
taken: first matching band, else the last band's subdivisions. -/
noncomputable def lodResult (distance dm : ℝ) (q : ℕ) (L : List (ℝ × ℕ)) : ℕ :=
  match lodLoop distance dm q L with
  | some s => s
  | none => ((L.getLast?).map (fun p => p.2 * q)).getD 0

lemma get_lod_subdivisions_eq (dsq : ℝ) (cm : ChunkManager) :
    get_lod_subdivisions dsq cm =
      lodResult (Real.sqrt dsq) cm.lod_distance_multiplier
        cm.lod_quality_multiplier cm.lod_levels := rfl

lemma lodLoop_mem (dm : ℝ) (q : ℕ) :
    ∀ (L : List (ℝ × ℕ)) (d : ℝ) (v : ℕ), lodLoop d dm q L = some v →
      ∃ p ∈ L, v = p.2 * q := by
  intro L
  induction L with
  | nil => intro d v h; exact absurd h Option.noConfusion
  | cons b rest ih =>
    intro d v h
    rw [lodLoop] at h
    by_cases hd : d ≤ b.1 * dm
    · rw [if_pos hd] at h
      exact ⟨b, by simp, (Option.some_injective _ h).symm⟩
    · rw [if_neg hd] at h
      obtain ⟨p, hp, hv⟩ := ih d v h
      exact ⟨p, by simp [hp], hv⟩

lemma lodResult_anti (dm : ℝ) (q : ℕ) :
    ∀ L : List (ℝ × ℕ), L.Pairwise (fun a b => b.2 ≤ a.2) →
      ∀ d1 d2 : ℝ, d1 ≤ d2 → lodResult d2 dm q L ≤ lodResult d1 dm q L := by
  intro L
  induction L with
  | nil => intro _ d1 d2 _; simp [lodResult, lodLoop]
  | cons b rest ih =>
    intro hpw d1 d2 h12
    rw [List.pairwise_cons] at hpw
    obtain ⟨hhead, hrest⟩ := hpw
    by_cases h1 : d1 ≤ b.1 * dm
    · have hd1 : lodResult d1 dm q (b :: rest) = b.2 * q := by
        simp [lodResult, lodLoop, if_pos h1]
      rw [hd1]
      by_cases h2 : d2 ≤ b.1 * dm
      · simp [lodResult, lodLoop, if_pos h2]
      · rw [lodResult]
        rw [lodLoop, if_neg h2]
        cases hloop : lodLoop d2 dm q rest with
        | some v =>
          obtain ⟨p, hp, rfl⟩ := lodLoop_mem dm q rest d2 v hloop
          exact Nat.mul_le_mul_right q (hhead p hp)
        | none =>
          cases rest with
          | nil => simp
          | cons c rest' =>
            simp only [List.getLast?_cons_cons]
            have hne : (c :: rest') ≠ [] := by simp
            rw [List.getLast?_eq_getLast_of_ne_nil hne]
            simpa using
              Nat.mul_le_mul_right q (hhead _ (List.getLast_mem hne))
    · have h2 : ¬ d2 ≤ b.1 * dm := fun h => h1 (h12.trans h)
      cases rest with
      | nil =>
        simp [lodResult, lodLoop, if_neg h1, if_neg h2]
      | cons c rest' =>
        have e1 : lodResult d1 dm q (b :: c :: rest') =
            lodResult d1 dm q (c :: rest') := by
          rw [lodResult, lodResult, lodLoop, if_neg h1, List.getLast?_cons_cons]
        have e2 : lodResult d2 dm q (b :: c :: rest') =
            lodResult d2 dm q (c :: rest') := by
          rw [lodResult, lodResult, lodLoop, if_neg h2, List.getLast?_cons_cons]
        rw [e1, e2]
        exact ih hrest d1 d2 h12

/-- A LOD table whose subdivision counts are not ordered: the nearest band
gives 1 subdivision, farther bands give 8. -/
def cmBadTable : ChunkManager where
  spawned_chunks := ∅
  last_camera_chunk := none
  to_spawn := []
  lod_to_update := []
  render_distance := 40
  lod_levels := [(10, 1), (20, 8), (30, 8), (40, 8), (50, 8)]
  lod_quality_multiplier := 1
  lod_distance_multiplier := 1

/-- C6 counterexample: the claim quantifies over every LOD table, but
`get_lod_subdivisions` is a first-match lookup that imposes no order on the
subdivision counts: with the table `[(10, 1), (20, 8), (30, 8), (40, 8),
(50, 8)]`, the chunk at distance 0 receives 1 subdivision while the chunk
at distance 15 receives 8, so the nearer chunk gets strictly fewer. -/
theorem lod_not_monotone_for_arbitrary_table :
    (0 : ℝ) ≤ 0 ∧ (0 : ℝ) < 15 ∧
    get_lod_subdivisions (0 * 0) cmBadTable <
      get_lod_subdivisions (15 * 15) cmBadTable := by
  refine ⟨le_refl 0, by norm_num, ?_⟩
  have h0 : get_lod_subdivisions (0 * 0) cmBadTable = 1 := by
    rw [get_lod_subdivisions_eq]
    norm_num [lodResult, lodLoop, cmBadTable, Real.sqrt_zero]
  have h15 : Real.sqrt ((15 : ℝ) * 15) = 15 := Real.sqrt_mul_self (by norm_num)
  have h1 : get_lod_subdivisions (15 * 15) cmBadTable = 8 := by
    rw [get_lod_subdivisions_eq, h15]
    norm_num [lodResult, lodLoop, cmBadTable]
  rw [h0, h1]
  norm_num

/-- C6 (amended): for every LOD table whose subdivision counts are
non-increasing along the table (as in the table shipped in `main.rs`), and
all distances `0 ≤ d1 ≤ d2`, the chunk at distance `d1` is assigned at
least as many subdivisions as the chunk at distance `d2`, for fixed
`lod_levels`, `lod_distance_multiplier` and `lod_quality_multiplier`. -/
theorem lod_subdivisions_antitone (cm : ChunkManager)
    (hmono : cm.lod_levels.Pairwise (fun a b => b.2 ≤ a.2))
    (d1 d2 : ℝ) (h1 : 0 ≤ d1) (h12 : d1 ≤ d2) :
    get_lod_subdivisions (d2 * d2) cm ≤ get_lod_subdivisions (d1 * d1) cm := by
  rw [get_lod_subdivisions_eq, get_lod_subdivisions_eq,
    Real.sqrt_mul_self h1, Real.sqrt_mul_self (h1.trans h12)]
  exact lodResult_anti _ _ _ hmono d1 d2 h12

/-- The `ChunkManager` configuration installed by `main.rs` (lines 70-85). -/
noncomputable def cmMain : ChunkManager where
  spawned_chunks := ∅
  last_camera_chunk := none
  to_spawn := []
  lod_to_update := []
  render_distance := 40
  lod_levels := [(0.70, 20), (1.25, 15), (2.0, 8), (3.0, 3), (4.0, 1)]
  lod_quality_multiplier := 1
  lod_distance_multiplier := 10.0

/-- Witness for C6 (amended) on the shipped LOD table at distances 5 and 20. -/
theorem lod_subdivisions_antitone_witness :
    get_lod_subdivisions (20 * 20) cmMain ≤ get_lod_subdivisions (5 * 5) cmMain :=
  lod_subdivisions_antitone cmMain
    (by simp [cmMain, List.pairwise_cons]) 5 20 (by norm_num) (by norm_num)

/-- The constant `MAP_HEIGHT_SCALE` (`consts.rs` line 7). -/
def MAP_HEIGHT_SCALE : ℝ := 230.0

/-- A world/mesh position, the `&[f32; 3]` the generator samples
(`pos[0], pos[1], pos[2]` become `x, y, z`). -/
structure Pos3 where
  x : ℝ
  y : ℝ
  z : ℝ

/-- Rust `f32::clamp(lo, hi)` on a non-NaN value with `lo ≤ hi`. -/
def rclamp (v lo hi : ℝ) : ℝ := min (max v lo) hi

/-- Rust `%` on `f64`; for the nonnegative operands used in
`PerlinLayer::new` it equals `a - b * ⌊a / b⌋`. -/
noncomputable def fmodPos (a b : ℝ) : ℝ := a - b * (⌊a / b⌋ : ℤ)

/-- The `PerlinLayer` resource (`world_generation.rs` lines 168-174).  The
`perlin` field holds the seeded sampler `Perlin::new(seed)` of the external
`noise` crate. -/
structure PerlinLayer where
  perlin : ℝ → ℝ → ℝ
  horizontal_scale : ℝ
  vertical_scale : ℝ
  offset : ℝ

/-- The constructor `PerlinLayer::new` (`world_generation.rs` lines 177-184).  The
construction `Perlin::new(seed)` lives in the external `noise` crate, not
in this repository; it is modelled by applying a parameter
`noise : ℕ → ℝ → ℝ → ℝ` (seed to deterministic 2-D sampler), which is all
the spec's determinism contract depends on. -/
noncomputable def PerlinLayer.new (noise : ℕ → ℝ → ℝ → ℝ) (seed : ℕ)
    (horizontal_scale vertical_scale : ℝ) : PerlinLayer where
  perlin := noise seed
  horizontal_scale := horizontal_scale
  vertical_scale := vertical_scale
  offset := fmodPos ((seed : ℝ) * 1337.42) 100000.0

/-- The sampler `PerlinLayer::get_level` (`world_generation.rs` lines 186-194). -/
noncomputable def PerlinLayer.get_level (l : PerlinLayer) (pos : Pos3) : ℝ :=
  l.perlin (pos.x * l.horizontal_scale / 1000.0 + l.offset)
      (pos.z * l.horizontal_scale / 1000.0 + (Real.sqrt l.offset + 202994.0)) *
    l.vertical_scale

/-- The `WorldGenerator` resource (`world_generation.rs` lines 81-87). -/
structure WorldGenerator where
  seed : ℕ
  terrain_layers : List PerlinLayer
  temperature_layer : PerlinLayer
  humidity_layer : PerlinLayer

/-- The constructor `WorldGenerator::new` (`world_generation.rs` lines 90-104).  The
constant `TERRAIN_HORIZONTAL_SCALE` it multiplies into every layer's
horizontal scale is not defined under `src/`; modelled from the spec as a
configuration parameter `ths` (§9: threshold/scale constants "should be
exposed as configuration"). -/
noncomputable def WorldGenerator.new (noise : ℕ → ℝ → ℝ → ℝ) (ths : ℝ)
    (seed : ℕ) : WorldGenerator where
  seed := seed
  terrain_layers :=
    [PerlinLayer.new noise seed (0.08 * ths) 4.5,
     PerlinLayer.new noise seed (0.20 * ths) 3.5,
     PerlinLayer.new noise (seed + 100) (0.5 * ths) 1.75,
     PerlinLayer.new noise (seed + 200) (1.0 * ths) 0.5,
     PerlinLayer.new noise (seed + 300) (2.0 * ths) 0.4]
  temperature_layer := PerlinLayer.new noise (seed + 400) (0.06 * ths) 1.0
  humidity_layer := PerlinLayer.new noise (seed + 500) (0.06 * ths) 1.0

/-- The function `WorldGenerator::get_climate` (`world_generation.rs` lines 106-115):
normalized, clamped `(temperature, humidity)`. -/
noncomputable def WorldGenerator.get_climate (g : WorldGenerator) (pos : Pos3) :
    ℝ × ℝ :=
  let raw_temp := g.temperature_layer.get_level pos
  let raw_hum := g.humidity_layer.get_level pos
  (rclamp ((raw_temp / g.temperature_layer.vertical_scale + 1.0) * 0.5) 0 1,
   rclamp ((raw_hum / g.humidity_layer.vertical_scale + 1.0) * 0.5) 0 1)

/-- Modelled from the spec: the ocean threshold constants
(`OCEAN_HUMIDITY_THRESHOLD`, `OCEAN_HUMIDITY_OFFSET`,
`OCEAN_HOT_TEMP_THRESHOLD`, `OCEAN_COLD_TEMP_THRESHOLD`,
`OCEAN_TRANSITION_WIDTH`) referenced by `world_generation.rs` are not
defined under `src/`; §9 of the spec directs implementers to expose them as
configuration rather than hard-coding one revision's values, so they are
modelled as a configuration record threaded through the biome functions. -/
structure OceanCfg where
  ocean_humidity_threshold : ℝ
  ocean_humidity_offset : ℝ
  ocean_hot_temp_threshold : ℝ
  ocean_cold_temp_threshold : ℝ
  ocean_transition_width : ℝ

/-- The `Biome` enum (`world_generation.rs` lines 72-79). -/
inductive Biome where
  | Desert
  | Grasslands
  | Taiga
  | Forest
  | Ocean
deriving DecidableEq, Repr

/-- The classifier `WorldGenerator::get_biome` (`world_generation.rs` lines 117-150):
ocean when humidity exceeds the offset threshold or temperature is extreme,
otherwise a 2×2 temperature/humidity matrix. -/
noncomputable def WorldGenerator.get_biome (cfg : OceanCfg) (g : WorldGenerator)
    (pos : Pos3) : Biome :=
  let raw_temp := g.temperature_layer.get_level pos
  let raw_hum := g.humidity_layer.get_level pos
  let temp_normalized := (raw_temp / g.temperature_layer.vertical_scale + 1.0) * 0.5
  let hum_normalized := (raw_hum / g.humidity_layer.vertical_scale + 1.0) * 0.5
  if cfg.ocean_humidity_threshold + cfg.ocean_humidity_offset < hum_normalized ∨
      cfg.ocean_hot_temp_threshold < temp_normalized ∨
      temp_normalized < cfg.ocean_cold_temp_threshold then
    Biome.Ocean
  else if 0.5 < temp_normalized then
    if 0.45 < hum_normalized then Biome.Forest else Biome.Desert
  else
    if hum_normalized < 0.45 then Biome.Grasslands else Biome.Taiga

/-- The `hum_blend` ramp computed identically in
`get_biome_elevation_offset` and `get_biome_height_multiplier`
(`world_generation.rs` lines 209-211 and 240-242). -/
noncomputable def hum_ocean_blend (cfg : OceanCfg) (humidity : ℝ) : ℝ :=
  if cfg.ocean_humidity_threshold < humidity then
    rclamp ((humidity - cfg.ocean_humidity_threshold) /
      cfg.ocean_transition_width) 0 1
  else 0

/-- The `hot_blend` ramp (`world_generation.rs` lines 213-215 and 244-246). -/
noncomputable def hot_ocean_blend (cfg : OceanCfg) (temp : ℝ) : ℝ :=
  if cfg.ocean_hot_temp_threshold - cfg.ocean_transition_width < temp then
    rclamp ((temp - (cfg.ocean_hot_temp_threshold - cfg.ocean_transition_width)) /
      cfg.ocean_transition_width) 0 1
  else 0

/-- The `cold_blend` ramp (`world_generation.rs` lines 217-219 and 248-250). -/
noncomputable def cold_ocean_blend (cfg : OceanCfg) (temp : ℝ) : ℝ :=
  if temp < cfg.ocean_cold_temp_threshold + cfg.ocean_transition_width then
    rclamp ((cfg.ocean_cold_temp_threshold + cfg.ocean_transition_width - temp) /
      cfg.ocean_transition_width) 0 1
  else 0

/-- The blend `ocean_factor = hum_blend.max(hot_blend).max(cold_blend)`
(`world_generation.rs` lines 221 and 252). -/
noncomputable def ocean_factor (cfg : OceanCfg) (temp humidity : ℝ) : ℝ :=
  max (max (hum_ocean_blend cfg humidity) (hot_ocean_blend cfg temp))
    (cold_ocean_blend cfg temp)

/-- The function `get_biome_elevation_offset` (`world_generation.rs` lines 196-225). -/
noncomputable def get_biome_elevation_offset (cfg : OceanCfg)
    (temp humidity : ℝ) : ℝ :=
  let desert_elev : ℝ := 0.0
  let grass_elev : ℝ := 0.04
  let forest_elev : ℝ := 0.5
  let taiga_elev : ℝ := 8.0
  let ocean_elev : ℝ := -2.5
  let cold_blend := grass_elev + (taiga_elev - grass_elev) * humidity
  let hot_blend := desert_elev + (forest_elev - desert_elev) * humidity
  let land_elev := cold_blend + (hot_blend - cold_blend) * temp
  land_elev + (ocean_elev - land_elev) * ocean_factor cfg temp humidity

/-- The function `get_biome_height_multiplier` (`world_generation.rs` lines 227-256). -/
noncomputable def get_biome_height_multiplier (cfg : OceanCfg)
    (temp humidity : ℝ) : ℝ :=
  let desert_mult : ℝ := 0.01
  let grass_mult : ℝ := 0.02
  let forest_mult : ℝ := 0.05
  let taiga_mult : ℝ := 1.5
  let ocean_mult : ℝ := 0.01
  let cold_blend := grass_mult + (taiga_mult - grass_mult) * humidity
  let hot_blend := desert_mult + (forest_mult - desert_mult) * humidity
  let land_mult := cold_blend + (hot_blend - cold_blend) * temp
  land_mult + (ocean_mult - land_mult) * ocean_factor cfg temp humidity

/-- The function `WorldGenerator::get_terrain_height` (`world_generation.rs` lines
152-165): climate at the position, sum of terrain layers, biome multiplier
and elevation offset, scaled by `MAP_HEIGHT_SCALE`. -/
noncomputable def WorldGenerator.get_terrain_height (cfg : OceanCfg)
    (g : WorldGenerator) (pos : Pos3) : ℝ :=
  let climate := g.get_climate pos
  let base_height :=
    g.terrain_layers.foldl (fun acc layer => acc + layer.get_level pos) 0.0
  let height_multiplier := get_biome_height_multiplier cfg climate.1 climate.2
  let elevation_offset := get_biome_elevation_offset cfg climate.1 climate.2
  let final_height := base_height * height_multiplier + elevation_offset
  final_height * MAP_HEIGHT_SCALE

/-- The per-vertex height computed inline in the async build task spawned by
`modify_plane` (`world_generation.rs` lines 289-308): world position =
mesh-local vertex + chunk transform translation, then the same climate /
layer-sum / biome-blend computation, written to the vertex Y coordinate as
`final_height * MAP_HEIGHT_SCALE`. -/
noncomputable def modify_plane_vertex_height (cfg : OceanCfg)
    (g : WorldGenerator) (pos translation : Pos3) : ℝ :=
  let world_pos : Pos3 :=
    ⟨pos.x + translation.x, pos.y + translation.y, pos.z + translation.z⟩
  let climate := g.get_climate world_pos
  let base_height :=
    g.terrain_layers.foldl (fun acc layer => acc + layer.get_level world_pos) 0.0
  let height_multiplier := get_biome_height_multiplier cfg climate.1 climate.2
  let elevation_offset := get_biome_elevation_offset cfg climate.1 climate.2
  let final_height := base_height * height_multiplier + elevation_offset
  final_height * MAP_HEIGHT_SCALE

/-- The per-vertex height computed inline in the LOD-rebuild task spawned by
`update_chunk_lod` (`world_generation.rs` lines 616-631); the task body is
textually identical to the one in `modify_plane`. -/
noncomputable def update_chunk_lod_vertex_height (cfg : OceanCfg)
    (g : WorldGenerator) (pos translation : Pos3) : ℝ :=
  let world_pos : Pos3 :=
    ⟨pos.x + translation.x, pos.y + translation.y, pos.z + translation.z⟩
  let climate := g.get_climate world_pos
  let base_height :=
    g.terrain_layers.foldl (fun acc layer => acc + layer.get_level world_pos) 0.0
  let height_multiplier := get_biome_height_multiplier cfg climate.1 climate.2
  let elevation_offset := get_biome_elevation_offset cfg climate.1 climate.2
  let final_height := base_height * height_multiplier + elevation_offset
  final_height * MAP_HEIGHT_SCALE

/-- C1: for a fixed seed (and fixed noise semantics, horizontal-scale and
ocean configuration), `get_terrain_height` and `get_biome` are
deterministic: any two `WorldGenerator` values built from the same seed —
e.g. the clone captured by the initial-build task, the clone captured by a
later LOD-rebuild task, or the resource read by an external collision
query — return identical results at every world position. -/
theorem terrain_height_and_biome_deterministic (noise : ℕ → ℝ → ℝ → ℝ)
    (ths : ℝ) (cfg : OceanCfg) (seed : ℕ) (pos : Pos3)
    (g1 g2 : WorldGenerator)
    (h1 : g1 = WorldGenerator.new noise ths seed)
    (h2 : g2 = WorldGenerator.new noise ths seed) :
    WorldGenerator.get_terrain_height cfg g1 pos =
      WorldGenerator.get_terrain_height cfg g2 pos ∧
    WorldGenerator.get_biome cfg g1 pos = WorldGenerator.get_biome cfg g2 pos := by
  subst h1; subst h2; exact ⟨rfl, rfl⟩

/-- Witness for C1 at the concrete seed 3 used by `main.rs` (line 160). -/
theorem terrain_height_and_biome_deterministic_witness :
    WorldGenerator.get_terrain_height ⟨0.55, 0.1, 0.8, 0.2, 0.05⟩
        (WorldGenerator.new (fun _ _ _ => 0) 1 3) ⟨0, 0, 0⟩ =
      WorldGenerator.get_terrain_height ⟨0.55, 0.1, 0.8, 0.2, 0.05⟩
        (WorldGenerator.new (fun _ _ _ => 0) 1 3) ⟨0, 0, 0⟩ ∧
    WorldGenerator.get_biome ⟨0.55, 0.1, 0.8, 0.2, 0.05⟩
        (WorldGenerator.new (fun _ _ _ => 0) 1 3) ⟨0, 0, 0⟩ =
      WorldGenerator.get_biome ⟨0.55, 0.1, 0.8, 0.2, 0.05⟩
        (WorldGenerator.new (fun _ _ _ => 0) 1 3) ⟨0, 0, 0⟩ :=
  terrain_height_and_biome_deterministic (fun _ _ _ => 0) 1
    ⟨0.55, 0.1, 0.8, 0.2, 0.05⟩ 3 ⟨0, 0, 0⟩ _ _ rfl rfl

/-- C7: the per-vertex height computed inline inside both async build tasks
(fresh spawn in `modify_plane` and rebuild in `update_chunk_lod`) equals
`WorldGenerator::get_terrain_height` evaluated at the vertex's world
position (mesh-local position plus the chunk transform translation), for
every generator, vertex position and transform. -/
theorem vertex_height_refines_terrain_height (cfg : OceanCfg)
    (g : WorldGenerator) (pos translation : Pos3) :
    modify_plane_vertex_height cfg g pos translation =
      WorldGenerator.get_terrain_height cfg g
        ⟨pos.x + translation.x, pos.y + translation.y, pos.z + translation.z⟩ ∧
    update_chunk_lod_vertex_height cfg g pos translation =
      WorldGenerator.get_terrain_height cfg g
        ⟨pos.x + translation.x, pos.y + translation.y, pos.z + translation.z⟩ :=
  ⟨rfl, rfl⟩

lemma hum_ocean_blend_eq (cfg : OceanCfg) (hW : 0 < cfg.ocean_transition_width)
    (h : ℝ) :
    hum_ocean_blend cfg h =
      rclamp ((h - cfg.ocean_humidity_threshold) / cfg.ocean_transition_width)
        0 1 := by
  rw [hum_ocean_blend]
  by_cases hc : cfg.ocean_humidity_threshold < h
  · rw [if_pos hc]
  · rw [if_neg hc]
    push_neg at hc
    have hx : (h - cfg.ocean_humidity_threshold) / cfg.ocean_transition_width ≤ 0 :=
      div_nonpos_of_nonpos_of_nonneg (sub_nonpos.mpr hc) hW.le
    rw [rclamp, max_eq_right hx, min_eq_left zero_le_one]

lemma hot_ocean_blend_eq (cfg : OceanCfg) (hW : 0 < cfg.ocean_transition_width)
    (t : ℝ) :
    hot_ocean_blend cfg t =
      rclamp ((t - (cfg.ocean_hot_temp_threshold - cfg.ocean_transition_width)) /
        cfg.ocean_transition_width) 0 1 := by
  rw [hot_ocean_blend]
  by_cases hc : cfg.ocean_hot_temp_threshold - cfg.ocean_transition_width < t
  · rw [if_pos hc]
  · rw [if_neg hc]
    push_neg at hc
    have hx : (t - (cfg.ocean_hot_temp_threshold - cfg.ocean_transition_width)) /
        cfg.ocean_transition_width ≤ 0 :=
      div_nonpos_of_nonpos_of_nonneg (sub_nonpos.mpr hc) hW.le
    rw [rclamp, max_eq_right hx, min_eq_left zero_le_one]

lemma cold_ocean_blend_eq (cfg : OceanCfg) (hW : 0 < cfg.ocean_transition_width)
    (t : ℝ) :
    cold_ocean_blend cfg t =
      rclamp ((cfg.ocean_cold_temp_threshold + cfg.ocean_transition_width - t) /
        cfg.ocean_transition_width) 0 1 := by
  rw [cold_ocean_blend]
  by_cases hc : t < cfg.ocean_cold_temp_threshold + cfg.ocean_transition_width
  · rw [if_pos hc]
  · rw [if_neg hc]
    push_neg at hc
    have hx : (cfg.ocean_cold_temp_threshold + cfg.ocean_transition_width - t) /
        cfg.ocean_transition_width ≤ 0 :=
      div_nonpos_of_nonpos_of_nonneg (sub_nonpos.mpr hc) hW.le
    rw [rclamp, max_eq_right hx, min_eq_left zero_le_one]

lemma ocean_factor_continuous (cfg : OceanCfg)
    (hW : 0 < cfg.ocean_transition_width) :
    Continuous (fun p : ℝ × ℝ => ocean_factor cfg p.1 p.2) := by
  have hhum : Continuous (fun p : ℝ × ℝ => hum_ocean_blend cfg p.2) := by
    have he : (fun p : ℝ × ℝ => hum_ocean_blend cfg p.2) = fun p : ℝ × ℝ =>
        min (max ((p.2 - cfg.ocean_humidity_threshold) /
          cfg.ocean_transition_width) 0) 1 :=
      funext fun p => hum_ocean_blend_eq cfg hW p.2
    rw [he]
    exact (((continuous_snd.sub continuous_const).div_const _).max
      continuous_const).min continuous_const
  have hhot : Continuous (fun p : ℝ × ℝ => hot_ocean_blend cfg p.1) := by
    have he : (fun p : ℝ × ℝ => hot_ocean_blend cfg p.1) = fun p : ℝ × ℝ =>
        min (max ((p.1 - (cfg.ocean_hot_temp_threshold -
          cfg.ocean_transition_width)) / cfg.ocean_transition_width) 0) 1 :=
      funext fun p => hot_ocean_blend_eq cfg hW p.1
    rw [he]
    exact (((continuous_fst.sub continuous_const).div_const _).max
      continuous_const).min continuous_const
  have hcold : Continuous (fun p : ℝ × ℝ => cold_ocean_blend cfg p.1) := by
    have he : (fun p : ℝ × ℝ => cold_ocean_blend cfg p.1) = fun p : ℝ × ℝ =>
        min (max ((cfg.ocean_cold_temp_threshold + cfg.ocean_transition_width -
          p.1) / cfg.ocean_transition_width) 0) 1 :=
      funext fun p => cold_ocean_blend_eq cfg hW p.1
    rw [he]
    exact (((continuous_const.sub continuous_fst).div_const _).max
      continuous_const).min continuous_const
  exact (hhum.max hhot).max hcold

/-- C9: for every ocean configuration with a positive transition width, the
biome-dependent elevation offset and height multiplier are continuous in
`(temperature, humidity)` everywhere — in particular across the ocean
thresholds — and the ocean blend factor's humidity ramp is continuous,
equals 0 at the ocean humidity threshold and reaches 1 exactly one
transition width past it. -/
theorem biome_blend_continuous (cfg : OceanCfg)
    (hW : 0 < cfg.ocean_transition_width) :
    Continuous (fun p : ℝ × ℝ => get_biome_elevation_offset cfg p.1 p.2) ∧
    Continuous (fun p : ℝ × ℝ => get_biome_height_multiplier cfg p.1 p.2) ∧
    Continuous (fun p : ℝ × ℝ => ocean_factor cfg p.1 p.2) ∧
    Continuous (fun h : ℝ => hum_ocean_blend cfg h) ∧
    hum_ocean_blend cfg cfg.ocean_humidity_threshold = 0 ∧
    hum_ocean_blend cfg
      (cfg.ocean_humidity_threshold + cfg.ocean_transition_width) = 1 := by
  have hfac := ocean_factor_continuous cfg hW
  refine ⟨?_, ?_, hfac, ?_, ?_, ?_⟩
  · have hland : Continuous (fun p : ℝ × ℝ =>
        0.04 + (8.0 - 0.04) * p.2 +
          (0.0 + (0.5 - 0.0) * p.2 - (0.04 + (8.0 - 0.04) * p.2)) * p.1) := by
      fun_prop
    have he : (fun p : ℝ × ℝ => get_biome_elevation_offset cfg p.1 p.2) =
        fun p : ℝ × ℝ =>
          (0.04 + (8.0 - 0.04) * p.2 +
            (0.0 + (0.5 - 0.0) * p.2 - (0.04 + (8.0 - 0.04) * p.2)) * p.1) +
          (-2.5 - (0.04 + (8.0 - 0.04) * p.2 +
            (0.0 + (0.5 - 0.0) * p.2 - (0.04 + (8.0 - 0.04) * p.2)) * p.1)) *
            ocean_factor cfg p.1 p.2 :=
      funext fun p => rfl
    rw [he]
    exact hland.add ((continuous_const.sub hland).mul hfac)
  · have hland : Continuous (fun p : ℝ × ℝ =>
        0.02 + (1.5 - 0.02) * p.2 +
          (0.01 + (0.05 - 0.01) * p.2 - (0.02 + (1.5 - 0.02) * p.2)) * p.1) := by
      fun_prop
    have he : (fun p : ℝ × ℝ => get_biome_height_multiplier cfg p.1 p.2) =
        fun p : ℝ × ℝ =>
          (0.02 + (1.5 - 0.02) * p.2 +
            (0.01 + (0.05 - 0.01) * p.2 - (0.02 + (1.5 - 0.02) * p.2)) * p.1) +
          (0.01 - (0.02 + (1.5 - 0.02) * p.2 +
            (0.01 + (0.05 - 0.01) * p.2 - (0.02 + (1.5 - 0.02) * p.2)) * p.1)) *
            ocean_factor cfg p.1 p.2 :=
      funext fun p => rfl
    rw [he]
    exact hland.add ((continuous_const.sub hland).mul hfac)
  · have he : (fun h : ℝ => hum_ocean_blend cfg h) = fun h : ℝ =>
        min (max ((h - cfg.ocean_humidity_threshold) /
          cfg.ocean_transition_width) 0) 1 :=
      funext fun h => hum_ocean_blend_eq cfg hW h
    rw [he]
    exact (((continuous_id.sub continuous_const).div_const _).max
      continuous_const).min continuous_const
  · simp [hum_ocean_blend]
  · rw [hum_ocean_blend, if_pos (by linarith)]
    rw [show cfg.ocean_humidity_threshold + cfg.ocean_transition_width -
        cfg.ocean_humidity_threshold = cfg.ocean_transition_width by ring]
    rw [div_self hW.ne']
    rw [rclamp, max_eq_left zero_le_one, min_self]

/-- Witness for C9 at a concrete ocean configuration with transition width
`0.05`. -/
theorem biome_blend_continuous_witness :
    Continuous (fun p : ℝ × ℝ =>
      get_biome_elevation_offset ⟨0.55, 0.1, 0.8, 0.2, 0.05⟩ p.1 p.2) ∧
    Continuous (fun p : ℝ × ℝ =>
      get_biome_height_multiplier ⟨0.55, 0.1, 0.8, 0.2, 0.05⟩ p.1 p.2) ∧
    Continuous (fun p : ℝ × ℝ =>
      ocean_factor ⟨0.55, 0.1, 0.8, 0.2, 0.05⟩ p.1 p.2) ∧
    Continuous (fun h : ℝ => hum_ocean_blend ⟨0.55, 0.1, 0.8, 0.2, 0.05⟩ h) ∧
    hum_ocean_blend ⟨0.55, 0.1, 0.8, 0.2, 0.05⟩
      (OceanCfg.ocean_humidity_threshold ⟨0.55, 0.1, 0.8, 0.2, 0.05⟩) = 0 ∧
    hum_ocean_blend ⟨0.55, 0.1, 0.8, 0.2, 0.05⟩
      (OceanCfg.ocean_humidity_threshold ⟨0.55, 0.1, 0.8, 0.2, 0.05⟩ +
        OceanCfg.ocean_transition_width ⟨0.55, 0.1, 0.8, 0.2, 0.05⟩) = 1 :=
  biome_blend_continuous ⟨0.55, 0.1, 0.8, 0.2, 0.05⟩ (by norm_num)

/-- An RGBA color value (four channels). -/
abbrev ColorV : Type := ℝ × ℝ × ℝ × ℝ

/-- Componentwise linear interpolation between two colors — the linear-space
`mix` used by `get_color_from_palette`.  Modelled from the spec: bevy's
`LinearRgba` mixing lives outside this repository, and §4.3 specifies that
blending "must use linear (not gamma-encoded) color mixing". -/
def mixColor (a b : ColorV) (t : ℝ) : ColorV :=
  (a.1 + (b.1 - a.1) * t, a.2.1 + (b.2.1 - a.2.1) * t,
   a.2.2.1 + (b.2.2.1 - a.2.2.1) * t, a.2.2.2 + (b.2.2.2 - a.2.2.2) * t)

lemma mixColor_zero (a b : ColorV) : mixColor a b 0 = a := by
  simp [mixColor]

lemma mixColor_one (a b : ColorV) : mixColor a b 1 = b := by
  simp [mixColor]

/-- A palette stop (`consts.rs` lines 32-35). -/
structure TerrainStop where
  height : ℝ
  color : ColorV
deriving Inhabited

/-- Model of an `f32` height argument: NaN or a real value.  The first line of
`get_color_from_palette` branches on `height.is_nan()`; all other `f32`
values are modelled by reals. -/
inductive RF where
  | nan : RF
  | val : ℝ → RF

/-- The stop-scanning loop of `get_color_from_palette`
(`world_generation.rs` lines 699-722) from the point where `height` is
known to exceed `prev.height` (`prev` is the stop at `upper_idx - 1`): when
the remaining stops are exhausted (`upper_idx >= palette.len()`) the last
stop's color is returned; when the next stop bounds `height` from above,
interpolate between `prev` and it over the normalized band position, with
blending only past `1 - smoothness` of the band. -/
noncomputable def paletteLoop (toLin fromLin : ColorV → ColorV)
    (h smoothness : ℝ) : TerrainStop → List TerrainStop → ColorV
  | prev, [] => prev.color
  | prev, s :: rest =>
    if h ≤ s.height then
      let range := s.height - prev.height
      let t := rclamp ((h - prev.height) / range) 0 1
      let blend_start := 1 - rclamp smoothness 0 1
      let base_color := toLin prev.color
      let next_color := toLin s.color
      if blend_start < t ∧ 0 < smoothness then
        fromLin (mixColor base_color next_color ((t - blend_start) / smoothness))
      else fromLin base_color
    else paletteLoop toLin fromLin h smoothness s rest

/-- The function `get_color_from_palette` (`world_generation.rs` lines 696-723): NaN
heights return the first stop's color; otherwise find the first stop whose
height is not exceeded and interpolate from its predecessor, clamping to
the palette's first or last color beyond the ends.  `none` models the
`palette[0]` panic on an empty palette.  The sRGB/linear conversions
(`Color::to_linear` and the `Into<Color>` conversion back) live in the
external bevy crate; they are modelled by the parameters `toLin` and
`fromLin`. -/
noncomputable def get_color_from_palette (toLin fromLin : ColorV → ColorV)
    (height : RF) (palette : List TerrainStop) (smoothness : ℝ) :
    Option ColorV :=
  match height with
  | RF.nan => palette.head?.map TerrainStop.color
  | RF.val h =>
    match palette with
    | [] => none
    | s0 :: rest =>
      if h ≤ s0.height then some s0.color
      else some (paletteLoop toLin fromLin h smoothness s0 rest)

lemma paletteLoop_cons (toLin fromLin : ColorV → ColorV) (h sm : ℝ)
    (prev s : TerrainStop) (rest : List TerrainStop) :
    paletteLoop toLin fromLin h sm prev (s :: rest) =
      if h ≤ s.height then
        if 1 - rclamp sm 0 1 <
            rclamp ((h - prev.height) / (s.height - prev.height)) 0 1 ∧
            0 < sm then
          fromLin (mixColor (toLin prev.color) (toLin s.color)
            ((rclamp ((h - prev.height) / (s.height - prev.height)) 0 1 -
              (1 - rclamp sm 0 1)) / sm))
        else fromLin (toLin prev.color)
      else paletteLoop toLin fromLin h sm s rest := rfl

lemma paletteLoop_shape (toLin fromLin : ColorV → ColorV) (h sm : ℝ) :
    ∀ (L : List TerrainStop) (prev : TerrainStop),
      ∃ s, (s = prev ∨ s ∈ L) ∧
        (paletteLoop toLin fromLin h sm prev L = s.color ∨
         paletteLoop toLin fromLin h sm prev L = fromLin (toLin s.color) ∨
         ∃ s2, (s2 = prev ∨ s2 ∈ L) ∧ ∃ t : ℝ,
           paletteLoop toLin fromLin h sm prev L =
             fromLin (mixColor (toLin s.color) (toLin s2.color) t)) := by
  intro L
  induction L with
  | nil => intro prev; exact ⟨prev, Or.inl rfl, Or.inl rfl⟩
  | cons s1 rest ih =>
    intro prev
    by_cases hb : h ≤ s1.height
    · by_cases hblend :
          1 - rclamp sm 0 1 < rclamp ((h - prev.height) / (s1.height - prev.height)) 0 1
            ∧ 0 < sm
      · refine ⟨prev, Or.inl rfl, Or.inr (Or.inr ⟨s1, Or.inr (by simp),
          (rclamp ((h - prev.height) / (s1.height - prev.height)) 0 1 -
            (1 - rclamp sm 0 1)) / sm, ?_⟩)⟩
        rw [paletteLoop_cons, if_pos hb, if_pos hblend]
      · refine ⟨prev, Or.inl rfl, Or.inr (Or.inl ?_)⟩
        rw [paletteLoop_cons, if_pos hb, if_neg hblend]
    · obtain ⟨s, hs, hres⟩ := ih s1
      rw [paletteLoop_cons, if_neg hb]
      refine ⟨s, ?_, ?_⟩
      · rcases hs with rfl | hs
        · exact Or.inr (by simp)
        · exact Or.inr (by simp [hs])
      · rcases hres with hres | hres | ⟨s2, hs2, t, ht⟩
        · exact Or.inl hres
        · exact Or.inr (Or.inl hres)
        · refine Or.inr (Or.inr ⟨s2, ?_, t, ht⟩)
          rcases hs2 with rfl | hs2
          · exact Or.inr (by simp)
          · exact Or.inr (by simp [hs2])

/-- C10: for every non-empty palette and every smoothness value,
`get_color_from_palette` is total: a NaN height returns the first stop's
color instead of faulting, and every other height returns some color —
a stop color, a stop color passed through the linear round-trip, or a
linear interpolation of two stop colors — without out-of-bounds access. -/
theorem palette_color_total (toLin fromLin : ColorV → ColorV) (height : RF)
    (palette : List TerrainStop) (smoothness : ℝ) (hne : palette ≠ []) :
    (get_color_from_palette toLin fromLin height palette smoothness).isSome =
      true ∧
    get_color_from_palette toLin fromLin RF.nan palette smoothness =
      some palette.headI.color ∧
    ∀ h : ℝ, ∃ c,
      get_color_from_palette toLin fromLin (RF.val h) palette smoothness =
        some c ∧
      ∃ s ∈ palette, c = s.color ∨ c = fromLin (toLin s.color) ∨
        ∃ s2 ∈ palette, ∃ t : ℝ,
          c = fromLin (mixColor (toLin s.color) (toLin s2.color) t) := by
  obtain ⟨s0, rest, rfl⟩ := List.exists_cons_of_ne_nil hne
  refine ⟨?_, ?_, ?_⟩
  · cases height with
    | nan => simp [get_color_from_palette]
    | val h =>
      by_cases hb : h ≤ s0.height
      · simp [get_color_from_palette, if_pos hb]
      · simp [get_color_from_palette, if_neg hb]
  · simp [get_color_from_palette]
  · intro h
    by_cases hb : h ≤ s0.height
    · exact ⟨s0.color, by simp [get_color_from_palette, if_pos hb],
        s0, by simp, Or.inl rfl⟩
    · obtain ⟨s, hs, hres⟩ := paletteLoop_shape toLin fromLin h smoothness rest s0
      refine ⟨paletteLoop toLin fromLin h smoothness s0 rest,
        by simp [get_color_from_palette, if_neg hb], s, ?_, ?_⟩
      · rcases hs with rfl | hs
        · simp
        · simp [hs]
      · rcases hres with hres | hres | ⟨s2, hs2, t, ht⟩
        · exact Or.inl hres
        · exact Or.inr (Or.inl hres)
        · refine Or.inr (Or.inr ⟨s2, ?_, t, ht⟩)
          rcases hs2 with rfl | hs2
          · simp
          · simp [hs2]

/-- The first two Grasslands palette stops (`consts.rs` lines 37-42), used
as a concrete test palette. -/
noncomputable def testPalette : List TerrainStop :=
  [⟨-1.0, (0.3, 0.2, 0.1, 1)⟩, ⟨-0.5, (0.8, 0.7, 0.5, 1)⟩]

/-- Witness for C10 on a concrete two-stop palette. -/
theorem palette_color_total_witness :
    (get_color_from_palette id id RF.nan testPalette 0).isSome = true ∧
    get_color_from_palette id id RF.nan testPalette 0 =
      some testPalette.headI.color ∧
    ∀ h : ℝ, ∃ c,
      get_color_from_palette id id (RF.val h) testPalette 0 = some c ∧
      ∃ s ∈ testPalette, c = s.color ∨ c = id (id s.color) ∨
        ∃ s2 ∈ testPalette, ∃ t : ℝ,
          c = id (mixColor (id s.color) (id s2.color) t) :=
  palette_color_total id id RF.nan testPalette 0 (by simp [testPalette])

/-- The closed-form piecewise-linear palette interpolation that
`get_color_from_palette` computes beyond the first stop when
`smoothness = 1.0` (full linear gradient); defined from the spec's §4.3
wording for comparison with the source translation `paletteLoop`. -/
noncomputable def paletteLerp (toLin fromLin : ColorV → ColorV) (h : ℝ) :
    TerrainStop → List TerrainStop → ColorV
  | prev, [] => prev.color
  | prev, s :: rest =>
    if h ≤ s.height then
      fromLin (mixColor (toLin prev.color) (toLin s.color)
        ((h - prev.height) / (s.height - prev.height)))
    else paletteLerp toLin fromLin h s rest

lemma paletteLerp_cons (toLin fromLin : ColorV → ColorV) (h : ℝ)
    (prev s : TerrainStop) (rest : List TerrainStop) :
    paletteLerp toLin fromLin h prev (s :: rest) =
      if h ≤ s.height then
        fromLin (mixColor (toLin prev.color) (toLin s.color)
          ((h - prev.height) / (s.height - prev.height)))
      else paletteLerp toLin fromLin h s rest := rfl

lemma paletteLerp_head (toLin fromLin : ColorV → ColorV)
    (hrt : ∀ c, fromLin (toLin c) = c) (s : TerrainStop)
    (L : List TerrainStop)
    (hchain : List.Chain' (fun a b => a.height < b.height) (s :: L)) :
    paletteLerp toLin fromLin s.height s L = s.color := by
  cases L with
  | nil => rfl
  | cons s1 rest =>
    have hlt : s.height < s1.height := (List.chain'_cons.mp hchain).1
    rw [paletteLerp_cons, if_pos hlt.le, sub_self, zero_div, mixColor_zero, hrt]

lemma paletteLerp_continuous (toLin fromLin : ColorV → ColorV)
    (hfrom : Continuous fromLin) (hrt : ∀ c, fromLin (toLin c) = c) :
    ∀ (L : List TerrainStop) (prev : TerrainStop),
      List.Chain' (fun a b => a.height < b.height) (prev :: L) →
      Continuous (fun h : ℝ => paletteLerp toLin fromLin h prev L) := by
  intro L
  induction L with
  | nil => intro prev _; exact continuous_const
  | cons s rest ih =>
    intro prev hchain
    obtain ⟨hps, hchain'⟩ := List.chain'_cons.mp hchain
    simp only [paletteLerp_cons]
    have hmix : Continuous
        (fun t : ℝ => mixColor (toLin prev.color) (toLin s.color) t) := by
      unfold mixColor
      fun_prop
    have hF : Continuous (fun h : ℝ =>
        fromLin (mixColor (toLin prev.color) (toLin s.color)
          ((h - prev.height) / (s.height - prev.height)))) :=
      hfrom.comp (hmix.comp ((continuous_id.sub continuous_const).div_const _))
    refine Continuous.if_le hF (ih s hchain') continuous_id continuous_const ?_
    intro x hx
    subst hx
    rw [div_self (sub_ne_zero.mpr hps.ne'), mixColor_one, hrt,
      paletteLerp_head toLin fromLin hrt s rest hchain']

lemma paletteLoop_one_eq (toLin fromLin : ColorV → ColorV) :
    ∀ (L : List TerrainStop) (prev : TerrainStop),
      List.Chain' (fun a b => a.height < b.height) (prev :: L) →
      ∀ h : ℝ, prev.height < h →
        paletteLoop toLin fromLin h 1 prev L =
          paletteLerp toLin fromLin h prev L := by
  intro L
  induction L with
  | nil => intro prev _ h _; rfl
  | cons s rest ih =>
    intro prev hchain h hh
    obtain ⟨hps, hchain'⟩ := List.chain'_cons.mp hchain
    rw [paletteLoop_cons, paletteLerp_cons]
    by_cases hb : h ≤ s.height
    · rw [if_pos hb, if_pos hb]
      have hrange : (0 : ℝ) < s.height - prev.height := sub_pos.mpr hps
      have hx0 : 0 < (h - prev.height) / (s.height - prev.height) :=
        div_pos (sub_pos.mpr hh) hrange
      have hx1 : (h - prev.height) / (s.height - prev.height) ≤ 1 :=
        (div_le_one hrange).mpr (by linarith)
      have hcl : rclamp ((h - prev.height) / (s.height - prev.height)) 0 1 =
          (h - prev.height) / (s.height - prev.height) := by
        rw [rclamp, max_eq_left hx0.le, min_eq_left hx1]
      have hsm : rclamp (1 : ℝ) 0 1 = 1 := by rw [rclamp]; norm_num
      rw [hcl, hsm]
      rw [if_pos ⟨by simpa using hx0, by norm_num⟩]
      norm_num
    · rw [if_neg hb, if_neg hb]
      exact ih s hchain' h (not_le.mp hb)

lemma chain_head_le_of_get {s1 : TerrainStop} {rest : List TerrainStop}
    (hchain : List.Chain' (fun a b : TerrainStop => a.height < b.height)
      (s1 :: rest))
    (k : ℕ) (s : TerrainStop) (hk : (s1 :: rest).get? k = some s) :
    s1.height ≤ s.height := by
  cases k with
  | zero =>
    simp only [List.get?_cons_zero, Option.some_inj] at hk
    rw [hk]
  | succ k' =>
    haveI : IsTrans TerrainStop (fun a b => a.height < b.height) :=
      ⟨fun _ _ _ hab hbc => lt_trans hab hbc⟩
    have hpw := List.chain'_iff_pairwise.mp hchain
    rw [List.pairwise_cons] at hpw
    have hmem : s ∈ rest := List.get?_mem (by simpa using hk)
    exact (hpw.1 s hmem).le

lemma paletteLoop_zero_step (toLin fromLin : ColorV → ColorV)
    (hrt : ∀ c, fromLin (toLin c) = c) :
    ∀ (L : List TerrainStop) (prev : TerrainStop),
      List.Chain' (fun a b => a.height < b.height) (prev :: L) →
      ∀ (i : ℕ) (s s' : TerrainStop), (prev :: L).get? i = some s →
        (prev :: L).get? (i + 1) = some s' →
        ∀ h : ℝ, s.height < h → h ≤ s'.height →
          paletteLoop toLin fromLin h 0 prev L = s.color := by
  intro L
  induction L with
  | nil =>
    intro prev _ i s s' _ hs' h _ _
    rw [List.get?_cons_succ] at hs'
    simp at hs'
  | cons s1 rest ih =>
    intro prev hchain i s s' hs hs' h hsh hhs'
    obtain ⟨hps, hchain'⟩ := List.chain'_cons.mp hchain
    cases i with
    | zero =>
      simp only [List.get?_cons_zero, Option.some_inj] at hs
      rw [List.get?_cons_succ, List.get?_cons_zero, Option.some_inj] at hs'
      subst hs; subst hs'
      rw [paletteLoop_cons, if_pos hhs', if_neg (by rintro ⟨-, h0⟩; exact lt_irrefl 0 h0)]
      exact hrt prev.color
    | succ k =>
      rw [List.get?_cons_succ] at hs hs'
      have hs1s : s1.height ≤ s.height := chain_head_le_of_get hchain' k s hs
      have hb : ¬ h ≤ s1.height := not_le.mpr (lt_of_le_of_lt hs1s hsh)
      rw [paletteLoop_cons, if_neg hb]
      exact ih s1 hchain' k s s' hs hs' h hsh hhs'

/-- C8: for every palette of strictly ordered stops, `get_color_from_palette`
with `smoothness = 1.0` is continuous in the height (across every stop
boundary: the value at a stop threshold equals the limit from above and
below), and with `smoothness = 0.0` it is a step function returning the
nearest lower stop's color until the height strictly crosses the next stop's
threshold.  The sRGB/linear conversions are any continuous mutually inverse
pair. -/
theorem palette_color_boundary_behavior (toLin fromLin : ColorV → ColorV)
    (hfrom : Continuous fromLin) (hrt : ∀ c, fromLin (toLin c) = c)
    (palette : List TerrainStop) (hne : palette ≠ [])
    (hchain : List.Chain' (fun a b => a.height < b.height) palette)
    (d : ColorV) :
    Continuous (fun h : ℝ =>
      (get_color_from_palette toLin fromLin (RF.val h) palette 1).getD d) ∧
    ∀ (i : ℕ) (s s' : TerrainStop), palette.get? i = some s →
      palette.get? (i + 1) = some s' →
      ∀ h : ℝ, s.height < h → h ≤ s'.height →
        get_color_from_palette toLin fromLin (RF.val h) palette 0 =
          some s.color := by
  obtain ⟨s0, rest, rfl⟩ := List.exists_cons_of_ne_nil hne
  constructor
  · have heq : (fun h : ℝ =>
        (get_color_from_palette toLin fromLin (RF.val h) (s0 :: rest) 1).getD d) =
        fun h : ℝ =>
          if h ≤ s0.height then s0.color
          else paletteLerp toLin fromLin h s0 rest := by
      funext h
      by_cases hb : h ≤ s0.height
      · simp [get_color_from_palette, if_pos hb]
      · simp only [get_color_from_palette, if_neg hb, Option.getD_some]
        exact paletteLoop_one_eq toLin fromLin rest s0 hchain h (not_le.mp hb)
    rw [heq]
    refine Continuous.if_le continuous_const
      (paletteLerp_continuous toLin fromLin hfrom hrt rest s0 hchain)
      continuous_id continuous_const ?_
    intro x hx
    subst hx
    exact (paletteLerp_head toLin fromLin hrt s0 rest hchain).symm
  · intro i s s' hs hs' h hsh hhs'
    have hs0 : s0.height ≤ s.height := chain_head_le_of_get hchain i s hs
    have hb : ¬ h ≤ s0.height := not_le.mpr (lt_of_le_of_lt hs0 hsh)
    rw [get_color_from_palette]
    simp only [if_neg hb, Option.some_inj]
    exact paletteLoop_zero_step toLin fromLin hrt rest s0 hchain i s s' hs hs'
      h hsh hhs'

/-- Witness for C8 on the concrete two-stop test palette. -/
theorem palette_color_boundary_behavior_witness :
    Continuous (fun h : ℝ =>
      (get_color_from_palette id id (RF.val h) testPalette 1).getD
        (0, 0, 0, 0)) ∧
    ∀ (i : ℕ) (s s' : TerrainStop), testPalette.get? i = some s →
      testPalette.get? (i + 1) = some s' →
      ∀ h : ℝ, s.height < h → h ≤ s'.height →
        get_color_from_palette id id (RF.val h) testPalette 0 =
          some s.color :=
  palette_color_boundary_behavior id id continuous_id (fun _ => rfl)
    testPalette (by simp [testPalette])
    (by simp [testPalette, List.chain'_cons]; norm_num) (0, 0, 0, 0)

end BevySim
